import Mathlib

/-!
Verification of `nengo/builder/learning_rules.py`.

The file has two layers:

* a numeric layer: the per-step computations of the `SimBCM`, `SimOja` and
  `SimVoja` operators, translated expression by expression from the numpy
  code of their `make_step` closures (arrays are total functions `ℕ → ℚ`,
  matching numpy buffers read at integer indices; scalars are `ℚ`);

* a build layer: the wiring functions `build_learning_rule`, `build_bcm`,
  `build_oja`, `build_voja` and `build_pes`, translated statement by
  statement, with the surrounding model layer (signal dictionaries,
  `add_op`, `model.build` of a low-pass filter) modelled from the spec's
  interface section, since that layer is outside the translated source.
-/

set_option autoImplicit false

namespace Nengo

/-- A numpy 1-d buffer: a total function from index to value. -/
abbrev Vec := ℕ → ℚ

/-- A numpy 2-d buffer. -/
abbrev Mat := ℕ → ℕ → ℚ

/-- Elementwise scalar multiple of a vector, `a * v` in numpy. -/
def vscale (a : ℚ) (v : Vec) : Vec := fun i => a * v i

/-- Elementwise product of two vectors, `u * v` in numpy. -/
def vmul (u v : Vec) : Vec := fun i => u i * v i

/-- Elementwise difference of two vectors, `u - v` in numpy. -/
def vsub (u v : Vec) : Vec := fun i => u i - v i

/-- `np.outer(u, v)`. -/
def outerProd (u v : Vec) : Mat := fun i j => u i * v j

/-- Elementwise scalar multiple of a matrix, `a * M` in numpy. -/
def mscale (a : ℚ) (M : Mat) : Mat := fun i j => a * M i j

/-- Elementwise sum of two matrices, the `+=` accumulation target. -/
def matAdd (A B : Mat) : Mat := fun i j => A i j + B i j

/-- Elementwise difference of two matrices, `A - B` in numpy. -/
def matSub (A B : Mat) : Mat := fun i j => A i j - B i j

/-- Row-broadcast product `M * v[:, None]` in numpy: row `i` of `M`
scaled by `v i`. -/
def mulCol (M : Mat) (v : Vec) : Mat := fun i j => M i j * v i

/-- Row-broadcast product `v[:, None] * M` in numpy. -/
def colMul (v : Vec) (M : Mat) : Mat := fun i j => v i * M i j

/-- Body of `step_simbcm` (`SimBCM.make_step`):
`delta[...] = np.outer(alpha * post_filtered * (post_filtered - theta),
pre_filtered)` with `alpha = learning_rate * dt`.  The previous contents
`delta` of the buffer are in scope in the closure (the buffer is an
`update`) but the assignment overwrites them. -/
def step_simbcm (learning_rate dt : ℚ) (pre_filtered post_filtered theta : Vec)
    (delta : Mat) : Mat :=
  let alpha := learning_rate * dt
  outerProd (vmul (vscale alpha post_filtered) (vsub post_filtered theta)) pre_filtered

/-- Body of `step_simoja` (`SimOja.make_step`): forgetting phase
`post_squared = alpha * post_filtered * post_filtered;
delta[...] = -beta * weights * post_squared[:, None]`, then Hebbian phase
`delta[...] += np.outer(alpha * post_filtered, pre_filtered)`. -/
def step_simoja (learning_rate dt beta : ℚ) (weights : Mat)
    (pre_filtered post_filtered : Vec) (delta : Mat) : Mat :=
  let alpha := learning_rate * dt
  let post_squared := vmul (vscale alpha post_filtered) post_filtered
  let forgetting := mulCol (mscale (-beta) weights) post_squared
  matAdd forgetting (outerProd (vscale alpha post_filtered) pre_filtered)

/-- Body of `step_simvoja` (`SimVoja.make_step`):
`delta[...] = alpha * learning_signal * (scale * np.outer(post_filtered,
pre_decoded) - post_filtered[:, np.newaxis] * scaled_encoders)` where
`scale = self.scale[:, np.newaxis]`.  The `learning_signal` buffer has
shape `(1,)` (the build asserts `rule.size_in == 1`), so broadcasting uses
its single element, taken here as a scalar. -/
def step_simvoja (learning_rate dt : ℚ) (scale : Vec) (pre_decoded post_filtered : Vec)
    (scaled_encoders : Mat) (learning_signal : ℚ) (delta : Mat) : Mat :=
  let alpha := learning_rate * dt
  mscale (alpha * learning_signal)
    (matSub (colMul scale (outerProd post_filtered pre_decoded))
      (colMul post_filtered scaled_encoders))

/-!  Heap-level operator model.  Signals are identified by `ℕ` handles;
a heap assigns each handle a buffer.  Each operator structure carries the
handles of the signals its constructor received and its dependency lists
`sets`/`incs`/`reads`/`updates` exactly as `__init__` declares them; its
`make_step` resolves the handles and runs the numeric step, writing only
the `delta` buffer. -/

/-- Value of one signal: a 1-d or a 2-d buffer. -/
inductive SigVal where
  | vec (v : Vec)
  | mat (m : Mat)

/-- Read a signal value as a 1-d buffer. -/
def SigVal.asVec : SigVal → Vec
  | .vec v => v
  | .mat m => fun i => m i 0

/-- Read a signal value as a 2-d buffer. -/
def SigVal.asMat : SigVal → Mat
  | .mat m => m
  | .vec v => fun i _ => v i

/-- The resolved signal buffers of a simulation step. -/
abbrev Heap := ℕ → SigVal

/-- The `SimBCM` operator: signal handles and the learning rate, as passed
to `SimBCM.__init__`. -/
structure SimBCM where
  pre_filtered : ℕ
  post_filtered : ℕ
  theta : ℕ
  delta : ℕ
  learning_rate : ℚ

/-- `self.sets = []` in `SimBCM.__init__`. -/
def SimBCM.sets (_ : SimBCM) : List ℕ := []

/-- `self.incs = []` in `SimBCM.__init__`. -/
def SimBCM.incs (_ : SimBCM) : List ℕ := []

/-- `self.reads = [pre_filtered, post_filtered, theta]` in `SimBCM.__init__`. -/
def SimBCM.reads (o : SimBCM) : List ℕ := [o.pre_filtered, o.post_filtered, o.theta]

/-- `self.updates = [delta]` in `SimBCM.__init__`. -/
def SimBCM.updates (o : SimBCM) : List ℕ := [o.delta]

/-- `SimBCM.make_step`: resolve the four signals, then the returned closure
overwrites the `delta` buffer with the BCM outer product; no other buffer
is written. -/
def SimBCM.make_step (o : SimBCM) (dt : ℚ) (h : Heap) : Heap :=
  let pre_filtered := (h o.pre_filtered).asVec
  let post_filtered := (h o.post_filtered).asVec
  let theta := (h o.theta).asVec
  let delta := (h o.delta).asMat
  fun s => if s = o.delta then
    .mat (step_simbcm o.learning_rate dt pre_filtered post_filtered theta delta)
  else h s

/-- The `SimOja` operator: signal handles and scalar parameters, as passed
to `SimOja.__init__`. -/
structure SimOja where
  pre_filtered : ℕ
  post_filtered : ℕ
  weights : ℕ
  delta : ℕ
  learning_rate : ℚ
  beta : ℚ

/-- `self.sets = []` in `SimOja.__init__`. -/
def SimOja.sets (_ : SimOja) : List ℕ := []

/-- `self.incs = []` in `SimOja.__init__`. -/
def SimOja.incs (_ : SimOja) : List ℕ := []

/-- `self.reads = [pre_filtered, post_filtered, weights]` in `SimOja.__init__`. -/
def SimOja.reads (o : SimOja) : List ℕ := [o.pre_filtered, o.post_filtered, o.weights]

/-- `self.updates = [delta]` in `SimOja.__init__`. -/
def SimOja.updates (o : SimOja) : List ℕ := [o.delta]

/-- `SimOja.make_step`: resolve the four signals, then the returned closure
runs the forgetting phase and the Hebbian phase on the `delta` buffer; no
other buffer is written. -/
def SimOja.make_step (o : SimOja) (dt : ℚ) (h : Heap) : Heap :=
  let weights := (h o.weights).asMat
  let pre_filtered := (h o.pre_filtered).asVec
  let post_filtered := (h o.post_filtered).asVec
  let delta := (h o.delta).asMat
  fun s => if s = o.delta then
    .mat (step_simoja o.learning_rate dt o.beta weights pre_filtered post_filtered delta)
  else h s

/-- The `SimVoja` operator: signal handles, the per-neuron `scale` array
and the learning rate, as passed to `SimVoja.__init__`. -/
structure SimVoja where
  pre_decoded : ℕ
  post_filtered : ℕ
  scaled_encoders : ℕ
  delta : ℕ
  scale : Vec
  learning_signal : ℕ
  learning_rate : ℚ

/-- `self.sets = []` in `SimVoja.__init__`. -/
def SimVoja.sets (_ : SimVoja) : List ℕ := []

/-- `self.incs = []` in `SimVoja.__init__`. -/
def SimVoja.incs (_ : SimVoja) : List ℕ := []

/-- `self.reads = [pre_decoded, post_filtered, scaled_encoders,
learning_signal]` in `SimVoja.__init__`. -/
def SimVoja.reads (o : SimVoja) : List ℕ :=
  [o.pre_decoded, o.post_filtered, o.scaled_encoders, o.learning_signal]

/-- `self.updates = [delta]` in `SimVoja.__init__`. -/
def SimVoja.updates (o : SimVoja) : List ℕ := [o.delta]

/-- `SimVoja.make_step`: resolve the five signals, then the returned
closure overwrites the `delta` buffer with the gated vector-space Oja
update; no other buffer is written.  The scalar `learning_signal` is the
single element of its shape-`(1,)` buffer. -/
def SimVoja.make_step (o : SimVoja) (dt : ℚ) (h : Heap) : Heap :=
  let pre_decoded := (h o.pre_decoded).asVec
  let post_filtered := (h o.post_filtered).asVec
  let scaled_encoders := (h o.scaled_encoders).asMat
  let delta := (h o.delta).asMat
  let learning_signal := (h o.learning_signal).asVec 0
  fun s => if s = o.delta then
    .mat (step_simvoja o.learning_rate dt o.scale pre_decoded post_filtered
      scaled_encoders learning_signal delta)
  else h s

/-- Fixture operator for concrete instantiations: signal handles 0–3. -/
def bcm0 : SimBCM := ⟨0, 1, 2, 3, 1⟩

/-- Fixture operator for concrete instantiations: signal handles 0–3. -/
def oja0 : SimOja := ⟨0, 1, 2, 3, 1, 1⟩

/-- Fixture operator for concrete instantiations: signal handles 0–4. -/
def voja0 : SimVoja := ⟨0, 1, 2, 3, fun _ => 1, 4, 1⟩

/-- Fixture heap: every signal is the constant-one vector. -/
def heap0 : Heap := fun _ => .vec (fun _ => 1)

/-- Fixture heap: like `heap0` except the buffer of handle 3 (the `delta`
handle of `bcm0`, `oja0` and `voja0`) holds the constant-two matrix. -/
def heap1 : Heap := fun s => if s = 3 then .mat (fun _ _ => 2) else .vec (fun _ => 1)

/-- C2: one invocation of `SimBCM`'s step function overwrites the delta
buffer with `delta[i][j] = (learning_rate * dt) * post_filtered[i] *
(post_filtered[i] - theta[i]) * pre_filtered[j]`, the outer product of
`alpha*post*(post-theta)` with `pre`. -/
theorem simbcm_step_is_outer_product (learning_rate dt : ℚ)
    (pre_filtered post_filtered theta : Vec) (delta : Mat) (i j : ℕ) :
    step_simbcm learning_rate dt pre_filtered post_filtered theta delta i j =
      learning_rate * dt * post_filtered i * (post_filtered i - theta i)
        * pre_filtered j := by
  simp only [step_simbcm, outerProd, vmul, vscale, vsub]

/-- C3: one invocation of `SimOja`'s step function leaves
`delta[i][j] = -beta * weights[i][j] * (alpha * post[i]^2)
+ alpha * post[i] * pre[j]` with `alpha = learning_rate * dt`; a zero
`post_filtered` yields a zero delta, and a zero `pre_filtered` with
arbitrary `post_filtered` yields the pure negative forgetting term. -/
theorem simoja_step_two_phase_formula :
    (∀ (learning_rate dt beta : ℚ) (weights : Mat) (pre post : Vec) (delta : Mat) (i j : ℕ),
      step_simoja learning_rate dt beta weights pre post delta i j =
        -beta * weights i j * (learning_rate * dt * post i ^ 2)
          + learning_rate * dt * post i * pre j) ∧
    (∀ (learning_rate dt beta : ℚ) (weights : Mat) (pre : Vec) (delta : Mat) (i j : ℕ),
      step_simoja learning_rate dt beta weights pre (fun _ => 0) delta i j = 0) ∧
    (∀ (learning_rate dt beta : ℚ) (weights : Mat) (post : Vec) (delta : Mat) (i j : ℕ),
      step_simoja learning_rate dt beta weights (fun _ => 0) post delta i j =
        -beta * weights i j * (learning_rate * dt * post i ^ 2)) := by
  refine ⟨?_, ?_, ?_⟩ <;>
    · intros
      simp only [step_simoja, matAdd, mulCol, mscale, outerProd, vmul, vscale]
      try ring

/-- C4: one invocation of `SimVoja`'s step function overwrites the delta
buffer with `delta[i][j] = alpha * learning_signal * (scale[i] * post[i] *
pre_decoded[j] - post[i] * scaled_encoders[i][j])` with
`alpha = learning_rate * dt`; in particular `learning_signal = 0` yields an
all-zero delta regardless of the other inputs. -/
theorem simvoja_step_formula_and_gating :
    (∀ (learning_rate dt : ℚ) (scale pre_decoded post : Vec) (scaled_encoders : Mat)
        (learning_signal : ℚ) (delta : Mat) (i j : ℕ),
      step_simvoja learning_rate dt scale pre_decoded post scaled_encoders
          learning_signal delta i j =
        learning_rate * dt * learning_signal *
          (scale i * post i * pre_decoded j - post i * scaled_encoders i j)) ∧
    (∀ (learning_rate dt : ℚ) (scale pre_decoded post : Vec) (scaled_encoders : Mat)
        (delta : Mat) (i j : ℕ),
      step_simvoja learning_rate dt scale pre_decoded post scaled_encoders 0 delta i j
        = 0) := by
  constructor <;>
    · intros
      simp only [step_simvoja, mscale, matSub, colMul, outerProd]
      ring

/-- C8: each of `SimBCM`, `SimOja`, `SimVoja` declares `sets = []`,
`incs = []`, its input signals in `reads`, and `delta` solely in
`updates`; its step function leaves every signal other than `delta`
unchanged, and the value it writes to `delta` depends only on the buffers
of `reads ++ updates`. -/
theorem operator_dependency_contract :
    ((∀ o : SimBCM, o.sets = [] ∧ o.incs = [] ∧
        o.reads = [o.pre_filtered, o.post_filtered, o.theta] ∧ o.updates = [o.delta]) ∧
      (∀ (o : SimBCM) (dt : ℚ) (h : Heap) (s : ℕ), s ≠ o.delta → o.make_step dt h s = h s) ∧
      (∀ (o : SimBCM) (dt : ℚ) (h1 h2 : Heap),
        (∀ s ∈ o.reads ++ o.updates, h1 s = h2 s) →
          o.make_step dt h1 o.delta = o.make_step dt h2 o.delta)) ∧
    ((∀ o : SimOja, o.sets = [] ∧ o.incs = [] ∧
        o.reads = [o.pre_filtered, o.post_filtered, o.weights] ∧ o.updates = [o.delta]) ∧
      (∀ (o : SimOja) (dt : ℚ) (h : Heap) (s : ℕ), s ≠ o.delta → o.make_step dt h s = h s) ∧
      (∀ (o : SimOja) (dt : ℚ) (h1 h2 : Heap),
        (∀ s ∈ o.reads ++ o.updates, h1 s = h2 s) →
          o.make_step dt h1 o.delta = o.make_step dt h2 o.delta)) ∧
    ((∀ o : SimVoja, o.sets = [] ∧ o.incs = [] ∧
        o.reads = [o.pre_decoded, o.post_filtered, o.scaled_encoders, o.learning_signal] ∧
        o.updates = [o.delta]) ∧
      (∀ (o : SimVoja) (dt : ℚ) (h : Heap) (s : ℕ), s ≠ o.delta → o.make_step dt h s = h s) ∧
      (∀ (o : SimVoja) (dt : ℚ) (h1 h2 : Heap),
        (∀ s ∈ o.reads ++ o.updates, h1 s = h2 s) →
          o.make_step dt h1 o.delta = o.make_step dt h2 o.delta)) := by
  refine ⟨⟨fun o => ⟨rfl, rfl, rfl, rfl⟩, ?_, ?_⟩,
      ⟨fun o => ⟨rfl, rfl, rfl, rfl⟩, ?_, ?_⟩,
      ⟨fun o => ⟨rfl, rfl, rfl, rfl⟩, ?_, ?_⟩⟩
  · intro o dt h s hs
    simp [SimBCM.make_step, hs]
  · intro o dt h1 h2 hag
    have h1e : h1 o.pre_filtered = h2 o.pre_filtered := hag _ (by simp [SimBCM.reads])
    have h2e : h1 o.post_filtered = h2 o.post_filtered := hag _ (by simp [SimBCM.reads])
    have h3e : h1 o.theta = h2 o.theta := hag _ (by simp [SimBCM.reads])
    have h4e : h1 o.delta = h2 o.delta := hag _ (by simp [SimBCM.updates])
    simp [SimBCM.make_step, h1e, h2e, h3e, h4e]
  · intro o dt h s hs
    simp [SimOja.make_step, hs]
  · intro o dt h1 h2 hag
    have h1e : h1 o.pre_filtered = h2 o.pre_filtered := hag _ (by simp [SimOja.reads])
    have h2e : h1 o.post_filtered = h2 o.post_filtered := hag _ (by simp [SimOja.reads])
    have h3e : h1 o.weights = h2 o.weights := hag _ (by simp [SimOja.reads])
    have h4e : h1 o.delta = h2 o.delta := hag _ (by simp [SimOja.updates])
    simp [SimOja.make_step, h1e, h2e, h3e, h4e]
  · intro o dt h s hs
    simp [SimVoja.make_step, hs]
  · intro o dt h1 h2 hag
    have h1e : h1 o.pre_decoded = h2 o.pre_decoded := hag _ (by simp [SimVoja.reads])
    have h2e : h1 o.post_filtered = h2 o.post_filtered := hag _ (by simp [SimVoja.reads])
    have h3e : h1 o.scaled_encoders = h2 o.scaled_encoders := hag _ (by simp [SimVoja.reads])
    have h4e : h1 o.learning_signal = h2 o.learning_signal := hag _ (by simp [SimVoja.reads])
    have h5e : h1 o.delta = h2 o.delta := hag _ (by simp [SimVoja.updates])
    simp [SimVoja.make_step, h1e, h2e, h3e, h4e, h5e]

/-- Witness for C8: the frame property of `SimBCM.make_step` at a concrete
operator, heap and non-delta signal. -/
theorem operator_dependency_contract_witness :
    bcm0.make_step 1 heap0 2 = heap0 2 :=
  operator_dependency_contract.1.2.1 bcm0 1 heap0 2 (by decide)

/-- C9: for each of `SimBCM`, `SimOja` and `SimVoja`, the value the step
function writes to `delta` depends only on the buffers of the `reads`
signals — two heaps agreeing on `reads` but with arbitrarily different
prior `delta` buffers produce the same new `delta`. -/
theorem delta_independent_of_prior_delta :
    (∀ (o : SimBCM) (dt : ℚ) (h1 h2 : Heap),
      (∀ s ∈ o.reads, h1 s = h2 s) →
        o.make_step dt h1 o.delta = o.make_step dt h2 o.delta) ∧
    (∀ (o : SimOja) (dt : ℚ) (h1 h2 : Heap),
      (∀ s ∈ o.reads, h1 s = h2 s) →
        o.make_step dt h1 o.delta = o.make_step dt h2 o.delta) ∧
    (∀ (o : SimVoja) (dt : ℚ) (h1 h2 : Heap),
      (∀ s ∈ o.reads, h1 s = h2 s) →
        o.make_step dt h1 o.delta = o.make_step dt h2 o.delta) := by
  refine ⟨?_, ?_, ?_⟩
  · intro o dt h1 h2 hag
    have h1e : h1 o.pre_filtered = h2 o.pre_filtered := hag _ (by simp [SimBCM.reads])
    have h2e : h1 o.post_filtered = h2 o.post_filtered := hag _ (by simp [SimBCM.reads])
    have h3e : h1 o.theta = h2 o.theta := hag _ (by simp [SimBCM.reads])
    simp [SimBCM.make_step, step_simbcm, h1e, h2e, h3e]
  · intro o dt h1 h2 hag
    have h1e : h1 o.pre_filtered = h2 o.pre_filtered := hag _ (by simp [SimOja.reads])
    have h2e : h1 o.post_filtered = h2 o.post_filtered := hag _ (by simp [SimOja.reads])
    have h3e : h1 o.weights = h2 o.weights := hag _ (by simp [SimOja.reads])
    simp [SimOja.make_step, step_simoja, h1e, h2e, h3e]
  · intro o dt h1 h2 hag
    have h1e : h1 o.pre_decoded = h2 o.pre_decoded := hag _ (by simp [SimVoja.reads])
    have h2e : h1 o.post_filtered = h2 o.post_filtered := hag _ (by simp [SimVoja.reads])
    have h3e : h1 o.scaled_encoders = h2 o.scaled_encoders := hag _ (by simp [SimVoja.reads])
    have h4e : h1 o.learning_signal = h2 o.learning_signal := hag _ (by simp [SimVoja.reads])
    simp [SimVoja.make_step, step_simvoja, h1e, h2e, h3e, h4e]

/-- Witness for C9: `oja0`'s step writes the same delta over `heap0` and
over `heap1`, which differ exactly at the delta buffer (handle 3). -/
theorem delta_independent_of_prior_delta_witness :
    oja0.make_step 1 heap0 oja0.delta = oja0.make_step 1 heap1 oja0.delta :=
  delta_independent_of_prior_delta.2.1 oja0 1 heap0 heap1 (by
    intro s hs
    simp [oja0, SimOja.reads] at hs
    rcases hs with h | h | h <;> simp [h, heap0, heap1])

/-!  Build layer.  The wiring functions of the module, translated
statement by statement.  The ensemble/connection layer and the model
object are outside the translated source; they are modelled from the
spec's data-model and external-interface sections. -/

/-- How a signal's initial buffer was given to `Signal(...)`: an all-zero
array, a constant scalar, or a pre-existing buffer owned elsewhere. -/
inductive SigInit where
  | zeros
  | const (v : ℚ)
  | external
deriving DecidableEq

/-- A build-time signal: identity, name, shape and initial buffer
(spec §3: "a named, shaped view over a shared mutable buffer"). -/
structure Sig where
  id : ℕ
  name : String
  shape : List ℕ
  init : SigInit
deriving DecidableEq

/-- Modelled from the spec (§3): an ensemble is a population descriptor
with a neuron count, a dimensionality and a radius.  Its gain vector
lives in `model.params` (§6) and its encoder matrix in `model.sig`. -/
structure Ensemble where
  n_neurons : ℕ
  dimensions : ℕ
  radius : ℚ
deriving DecidableEq

/-- Modelled from the spec (§9): the duck-typed `pre_obj`/`post_obj`
objects as an explicit closed variant — an ensemble, a neuron population
(carrying its parent ensemble, the `.ensemble` attribute), or another
node with raw input/output widths. -/
inductive NObj where
  | ens (e : Ensemble)
  | neurons (parent : Ensemble)
  | node (size_in size_out : ℕ)
deriving DecidableEq

/-- `obj.n_neurons` attribute access; plain nodes have no such attribute. -/
def NObj.n_neurons? : NObj → Option ℕ
  | .ens e => some e.n_neurons
  | .neurons p => some p.n_neurons
  | .node _ _ => none

/-- `obj.dimensions` attribute access; only ensembles have it. -/
def NObj.dimensions? : NObj → Option ℕ
  | .ens e => some e.dimensions
  | _ => none

/-- `obj.size_in`, the raw input width (spec §4.4): an ensemble's is its
dimensionality, a neuron population's its neuron count. -/
def NObj.size_in : NObj → ℕ
  | .ens e => e.dimensions
  | .neurons p => p.n_neurons
  | .node s _ => s

/-- `obj.radius` attribute access; only ensembles have it. -/
def NObj.radius? : NObj → Option ℚ
  | .ens e => some e.radius
  | _ => none

/-- `obj.ensemble` attribute access: a neuron population's parent
ensemble; other objects have no such attribute. -/
def NObj.ensemble? : NObj → Option Ensemble
  | .neurons p => some p
  | _ => none

/-- `obj.neurons` attribute access: the neuron view of an ensemble, whose
activities signal is looked up per ensemble; other objects have none. -/
def NObj.neuronsOf? : NObj → Option Ensemble
  | .ens e => some e
  | _ => none

/-- Modelled from the spec (§3): a connection carries its pre object, its
post object and the factoring flag; its weight signal lives in
`model.sig`. -/
structure Connection where
  pre_obj : NObj
  post_obj : NObj
  is_factored : Bool
deriving DecidableEq

/-- `get_pre_ens`: the pre object itself when it is an ensemble, else its
`.ensemble` attribute (an `AttributeError`, here `none`, on plain nodes). -/
def get_pre_ens (conn : Connection) : Option Ensemble :=
  match conn.pre_obj with
  | .ens e => some e
  | o => o.ensemble?

/-- `get_post_ens`: the post object itself when it is an ensemble or a
node, else the neuron population's parent ensemble. -/
def get_post_ens (conn : Connection) : NObj :=
  match conn.post_obj with
  | .neurons p => .ens p
  | o => o

/-- The four learning-rule descriptors (`BCM`, `Oja`, `Voja`, `PES` of
`nengo.learning_rules`) with the hyperparameters the builders read. -/
inductive RuleType where
  | bcm (pre_tau post_tau theta_tau learning_rate : ℚ)
  | oja (pre_tau post_tau learning_rate beta : ℚ)
  | voja (post_tau : Option ℚ) (learning_rate : ℚ)
  | pes (pre_tau learning_rate : ℚ)
deriving DecidableEq

/-- A learning rule attached to a connection (spec §3): parent connection,
the `modifies` string, the input width `size_in`, and the descriptor
(`rule.learning_rule_type`). -/
structure LearningRule where
  connection : Connection
  modifies : String
  size_in : ℕ
  learning_rule_type : RuleType
deriving DecidableEq

/-- Operators registered by this module: the generic `Reset`,
`ElementwiseInc` and `DotInc` from `nengo.builder.operator` (outside the
translated source) and this module's three simulation operators, each
carrying the signals passed to its constructor. -/
inductive Op where
  | reset (dst : Sig) (value : ℚ)
  | elementwiseInc (a x y : Sig) (tag : String)
  | dotInc (a x y : Sig) (tag : String)
  | simBCM (pre_filtered post_filtered theta delta : Sig) (learning_rate : ℚ)
  | simOja (pre_filtered post_filtered weights delta : Sig) (learning_rate beta : ℚ)
  | simVoja (pre_decoded post_filtered scaled_encoders delta : Sig)
      (scale : List ℚ) (learning_signal : Sig) (learning_rate : ℚ)
deriving DecidableEq

/-- Modelled from the spec (§6): the slice of the model/build layer the
wiring functions touch.  The signal-dictionary lookups
(`model.sig[...][...]`) and `model.params[...].gain` are read-only
oracles; `nextId` supplies fresh signal identities.  Beside the
scheduler's `operators` list, `addOpLog` records exactly the operators
that were registered through `model.add_op`, so that a direct
`model.operators.append(...)` is distinguishable from registration. -/
structure Model where
  dt : ℚ
  nextId : ℕ
  operators : List Op
  addOpLog : List Op
  common1 : Sig
  encoders : NObj → Sig
  weights : Connection → Sig
  connOut : Connection → Sig
  objOut : NObj → Sig
  neuronsOut : Ensemble → Sig
  paramsGain : NObj → List ℚ

/-- `model.add_op(op)` (spec §6): register an operator with the global
scheduler. -/
def Model.add_op (m : Model) (op : Op) : Model :=
  { m with operators := m.operators ++ [op], addOpLog := m.addOpLog ++ [op] }

/-- `Signal(...)`: a fresh signal with the given name, shape and initial
buffer. -/
def Model.newSignal (m : Model) (name : String) (shape : List ℕ)
    (init : SigInit) : Model × Sig :=
  ({ m with nextId := m.nextId + 1 }, ⟨m.nextId, name, shape, init⟩)

/-- Modelled from the spec (§6): `model.build(Lowpass(tau), sig)` builds
the low-pass filter primitive (outside this module) and returns the
signal holding its filtered output — a fresh signal of the same shape. -/
def Model.buildLowpass (m : Model) (tau : ℚ) (s : Sig) : Model × Sig :=
  m.newSignal ("filtered " ++ s.name) s.shape .external

/-- Build-time failures: a raised `ValueError`, a failed `assert`, or a
missing attribute (`AttributeError`). -/
inductive BuildErr where
  | valueError (msg : String)
  | assertError
  | attrError
deriving DecidableEq

/-- `build_bcm`: low-pass filter the pre and post activities and the
theta threshold, then register the `SimBCM` operator via `add_op`.
`delta` stands for `model.sig[rule]['delta']`, set by
`build_learning_rule` just before dispatch. -/
def build_bcm (m : Model) (pre_tau post_tau theta_tau learning_rate : ℚ)
    (rule : LearningRule) (delta : Sig) : Except BuildErr Model :=
  let conn := rule.connection
  match get_pre_ens conn with
  | none => .error .attrError
  | some preEns =>
    let pre_activities := m.neuronsOut preEns
    let (m, pre_filtered) := m.buildLowpass pre_tau pre_activities
    match (get_post_ens conn).neuronsOf? with
    | none => .error .attrError
    | some postEns =>
      let post_activities := m.neuronsOut postEns
      let (m, post_filtered) := m.buildLowpass post_tau post_activities
      let (m, theta) := m.buildLowpass theta_tau post_filtered
      .ok (m.add_op (.simBCM pre_filtered post_filtered theta delta learning_rate))

/-- `build_oja`: low-pass filter the pre and post activities, then
register the `SimOja` operator (reading the connection's weight signal)
via `add_op`. -/
def build_oja (m : Model) (pre_tau post_tau learning_rate beta : ℚ)
    (rule : LearningRule) (delta : Sig) : Except BuildErr Model :=
  let conn := rule.connection
  match get_pre_ens conn with
  | none => .error .attrError
  | some preEns =>
    let pre_activities := m.neuronsOut preEns
    match (get_post_ens conn).neuronsOf? with
    | none => .error .attrError
    | some postEns =>
      let post_activities := m.neuronsOut postEns
      let (m, pre_filtered) := m.buildLowpass pre_tau pre_activities
      let (m, post_filtered) := m.buildLowpass post_tau post_activities
      .ok (m.add_op
        (.simOja pre_filtered post_filtered (m.weights conn) delta learning_rate beta))

/-- `build_voja`: optionally low-pass filter the post activity, allocate
the learning gate signal (reset to one each step, `assert rule.size_in ==
1`), derive the encoder scale from the post gain and radius (asserting
its shape against the post activity), and append the `SimVoja` operator
directly to `model.operators` — not through `add_op`. -/
def build_voja (m : Model) (post_tau : Option ℚ) (learning_rate : ℚ)
    (rule : LearningRule) (delta : Sig) : Except BuildErr Model :=
  let conn := rule.connection
  let post := conn.post_obj
  let (m, post_filtered) :=
    match post_tau with
    | some tau => m.buildLowpass tau (m.objOut post)
    | none => (m, m.objOut post)
  let (m, learning) := m.newSignal "Voja:learning" [rule.size_in] .zeros
  if rule.size_in = 1 then
    let m := m.add_op (.reset learning 1)
    let scaled_encoders := m.encoders post
    match post.radius? with
    | none => .error .attrError
    | some radius =>
      let encoder_scale := (m.paramsGain post).map (fun g => g / radius)
      if post_filtered.shape = [encoder_scale.length] then
        .ok { m with operators := m.operators ++
          [.simVoja (m.connOut conn) post_filtered scaled_encoders delta
            encoder_scale learning learning_rate] }
      else .error .assertError
  else .error .assertError

/-- `conn.pre_obj.n_neurons if isinstance(conn.pre_obj, Ensemble) else
conn.pre_obj.size_in` in `build_pes`. -/
def pes_n_neurons : NObj → ℕ
  | .ens e => e.n_neurons
  | o => o.size_in

/-- `build_pes`: the error and correction signals (each reset to zero),
the filtered pre activities, the constant `-learning_rate * dt /
n_neurons` signal feeding a `DotInc` into the correction, the
topology-dependent local error (projected through the post encoders when
the connection is unfactored; the correction itself when it is factored
with an ensemble or neuron-population pre; a raised `ValueError`
otherwise), and the reset-then-outer-product accumulation into `delta`. -/
def build_pes (m : Model) (pre_tau learning_rate : ℚ)
    (rule : LearningRule) (delta : Sig) : Except BuildErr Model :=
  let conn := rule.connection
  let (m, error) := m.newSignal "PES:error" [rule.size_in] .zeros
  let m := m.add_op (.reset error 0)
  let (m, acts) := m.buildLowpass pre_tau (m.objOut conn.pre_obj)
  let (m, correction) := m.newSignal "PES:correction" error.shape .zeros
  let m := m.add_op (.reset correction 0)
  let n_neurons := pes_n_neurons conn.pre_obj
  let (m, lr_sig) := m.newSignal "PES:learning_rate" []
    (.const (-learning_rate * m.dt / (n_neurons : ℚ)))
  let m := m.add_op (.dotInc lr_sig error correction "PES:correct")
  let localRes : Except BuildErr (Model × Sig) :=
    if conn.is_factored = false then
      let post := get_post_ens conn
      let weights := m.weights conn
      let encoders := m.encoders post
      let (m, encoded) := m.newSignal "PES:encoded" [weights.shape.headD 0] .zeros
      let m := m.add_op (.reset encoded 0)
      let m := m.add_op (.dotInc encoders correction encoded "PES:encode")
      .ok (m, encoded)
    else
      match conn.pre_obj with
      | .ens _ => .ok (m, correction)
      | .neurons _ => .ok (m, correction)
      | .node _ _ => .error (.valueError "pre object not suitable for PES learning")
  match localRes with
  | .error e => .error e
  | .ok (m, local_error) =>
    let m := m.add_op (.reset delta 0)
    let m := m.add_op (.elementwiseInc local_error acts delta "PES:Inc Delta")
    .ok m

/-- `model.build(rule.learning_rule_type, rule)`: the type-indexed builder
dispatch (spec §2) to the rule-specific wiring function. -/
def buildRuleType (m : Model) (rule : LearningRule) (delta : Sig) :
    Except BuildErr Model :=
  match rule.learning_rule_type with
  | .bcm a b c lr => build_bcm m a b c lr rule delta
  | .oja a b lr beta => build_oja m a b lr beta rule delta
  | .voja tau lr => build_voja m tau lr rule delta
  | .pes a lr => build_pes m a lr rule delta

/-- `build_learning_rule`: resolve the target signal and allocate the
`delta` accumulator by `rule.modifies`, assert `delta.shape ==
target.shape`, register the generic accumulate operator via `add_op`, and
dispatch to the rule-specific builder.  In the `'encoders'` branch the
source evaluates `ValueError("Cannot perform encoder learning on an
unfactored connection")` without `raise` when the connection is not
factored, so the check has no effect; it is embedded as the no-op it is.
The delta-allocation block (source lines 174–196) is `delta_setup`; the
assert, registration and dispatch follow in `build_learning_rule`. -/
def delta_setup (m : Model) (rule : LearningRule) :
    Except BuildErr (Model × Sig × String × Sig) :=
  let conn := rule.connection
  if rule.modifies = "encoders" then
    -- `if not conn.is_factored: ValueError(...)`: constructed, never raised
    let post := get_post_ens conn
    let target := m.encoders post
    match post.n_neurons?, post.dimensions? with
    | some nn, some dims =>
      let (m, delta) := m.newSignal "Delta" [nn, dims] .zeros
      .ok (m, target, "encoders += delta", delta)
    | _, _ => .error .attrError
  else if rule.modifies = "decoders" ∨ rule.modifies = "weights" then
    match get_pre_ens conn with
    | none => .error .attrError
    | some pre =>
      let target := m.weights conn
      if conn.is_factored = false then
        match (get_post_ens conn).n_neurons? with
        | some nn =>
          let (m, delta) := m.newSignal "Delta" [nn, pre.n_neurons] .zeros
          .ok (m, target, "weights += delta", delta)
        | none => .error .attrError
      else
        let (m, delta) := m.newSignal "Delta" [rule.size_in, pre.n_neurons] .zeros
        .ok (m, target, "weights += delta", delta)
  else .error (.valueError ("Unknown target " ++ rule.modifies))

def build_learning_rule (m : Model) (rule : LearningRule) :
    Except BuildErr Model :=
  match delta_setup m rule with
  | .error e => .error e
  | .ok (m, target, tag, delta) =>
    if delta.shape = target.shape then
      buildRuleType (m.add_op (.elementwiseInc m.common1 delta target tag)) rule delta
    else .error .assertError

/-- Fixture ensemble: two neurons, one dimension, unit radius. -/
def ens2 : Ensemble := ⟨2, 1, 1⟩

/-- Fixture model: concrete signal oracles shaped for `ens2`. -/
def model0 : Model where
  dt := 1/1000
  nextId := 1000
  operators := []
  addOpLog := []
  common1 := ⟨0, "common", [], .const 1⟩
  encoders := fun _ => ⟨1, "encoders", [2, 1], .external⟩
  weights := fun _ => ⟨2, "weights", [2, 2], .external⟩
  connOut := fun _ => ⟨3, "conn out", [1], .external⟩
  objOut := fun _ => ⟨4, "out", [2], .external⟩
  neuronsOut := fun _ => ⟨5, "neurons out", [2], .external⟩
  paramsGain := fun _ => [1, 1]

/-- Fixture: an unfactored connection from `ens2` to itself. -/
def unfactoredConn : Connection := ⟨.ens ens2, .ens ens2, false⟩

/-- Fixture: an encoder-modifying (Voja) rule on the unfactored
connection — the configuration the unfactored-encoder check is meant to
reject. -/
def encoderRuleUnfactored : LearningRule :=
  ⟨unfactoredConn, "encoders", 1, .voja none (1/100)⟩

/-- C1: refuted on the code — requesting encoder learning on an
unfactored connection does not fail at build time: the source constructs
the `ValueError` without `raise`, so `build_learning_rule` completes and
leaves its three operators registered. -/
theorem unfactored_encoder_learning_not_raised :
    ∃ m', build_learning_rule model0 encoderRuleUnfactored = .ok m' ∧
      m'.operators.length = 3 :=
  ⟨_, rfl, rfl⟩

/-- On success, `build_bcm` extends the operator list and the `add_op`
log by one identical batch of operators. -/
theorem build_bcm_append (m : Model) (a b c lr : ℚ) (rule : LearningRule)
    (delta : Sig) (m' : Model) (h : build_bcm m a b c lr rule delta = .ok m') :
    ∃ l, m'.operators = m.operators ++ l ∧ m'.addOpLog = m.addOpLog ++ l := by
  simp only [build_bcm] at h
  split at h
  · exact absurd h (by simp)
  split at h
  · exact absurd h (by simp)
  injection h with h
  subst h
  exact ⟨_, rfl, rfl⟩

/-- On success, `build_oja` extends the operator list and the `add_op`
log by one identical batch of operators. -/
theorem build_oja_append (m : Model) (a b lr beta : ℚ) (rule : LearningRule)
    (delta : Sig) (m' : Model) (h : build_oja m a b lr beta rule delta = .ok m') :
    ∃ l, m'.operators = m.operators ++ l ∧ m'.addOpLog = m.addOpLog ++ l := by
  simp only [build_oja] at h
  split at h
  · exact absurd h (by simp)
  split at h
  · exact absurd h (by simp)
  injection h with h
  subst h
  exact ⟨_, rfl, rfl⟩

/-- On success, `build_pes` only appends operators: every previously
registered operator is still registered. -/
theorem build_pes_mono (m : Model) (a lr : ℚ) (rule : LearningRule)
    (delta : Sig) (m' : Model) (h : build_pes m a lr rule delta = .ok m') :
    ∀ o ∈ m.operators, o ∈ m'.operators := by
  intro o ho
  simp only [build_pes] at h
  split at h
  · exact absurd h (by simp)
  next ml le heq =>
    injection h with h
    subst h
    split at heq
    · injection heq with heq
      cases heq
      simp [Model.add_op, Model.newSignal, Model.buildLowpass, List.mem_append, ho]
    · split at heq
      · injection heq with heq
        cases heq
        simp [Model.add_op, Model.newSignal, Model.buildLowpass, List.mem_append, ho]
      · injection heq with heq
        cases heq
        simp [Model.add_op, Model.newSignal, Model.buildLowpass, List.mem_append, ho]
      · exact absurd heq (by simp)

/-- On success, `build_bcm` only appends operators. -/
theorem build_bcm_mono (m : Model) (a b c lr : ℚ) (rule : LearningRule)
    (delta : Sig) (m' : Model) (h : build_bcm m a b c lr rule delta = .ok m') :
    ∀ o ∈ m.operators, o ∈ m'.operators := by
  intro o ho
  obtain ⟨l, hl, -⟩ := build_bcm_append m a b c lr rule delta m' h
  simp [hl, List.mem_append, ho]

/-- On success, `build_oja` only appends operators. -/
theorem build_oja_mono (m : Model) (a b lr beta : ℚ) (rule : LearningRule)
    (delta : Sig) (m' : Model) (h : build_oja m a b lr beta rule delta = .ok m') :
    ∀ o ∈ m.operators, o ∈ m'.operators := by
  intro o ho
  obtain ⟨l, hl, -⟩ := build_oja_append m a b lr beta rule delta m' h
  simp [hl, List.mem_append, ho]

/-- On success, `build_pes` keeps the operator list and the `add_op` log
in step: if they were equal before, they are equal after. -/
theorem build_pes_balanced (m : Model) (a lr : ℚ) (rule : LearningRule)
    (delta : Sig) (m' : Model) (h : build_pes m a lr rule delta = .ok m')
    (hbal : m.operators = m.addOpLog) : m'.operators = m'.addOpLog := by
  simp only [build_pes] at h
  split at h
  · exact absurd h (by simp)
  next ml le heq =>
    injection h with h
    subst h
    split at heq
    · injection heq with heq
      cases heq
      simp [Model.add_op, Model.newSignal, Model.buildLowpass, hbal]
    · split at heq
      · injection heq with heq
        cases heq
        simp [Model.add_op, Model.newSignal, Model.buildLowpass, hbal]
      · injection heq with heq
        cases heq
        simp [Model.add_op, Model.newSignal, Model.buildLowpass, hbal]
      · exact absurd heq (by simp)

/-- On success, `build_voja` only appends operators. -/
theorem build_voja_mono (m : Model) (tau : Option ℚ) (lr : ℚ)
    (rule : LearningRule) (delta : Sig) (m' : Model)
    (h : build_voja m tau lr rule delta = .ok m') :
    ∀ o ∈ m.operators, o ∈ m'.operators := by
  intro o ho
  cases tau
  case none =>
    simp only [build_voja] at h
    split at h
    · split at h
      · exact absurd h (by simp)
      · split at h
        · injection h with h
          subst h
          simp [Model.add_op, Model.newSignal, Model.buildLowpass, List.mem_append, ho]
        · exact absurd h (by simp)
    · exact absurd h (by simp)
  case some t =>
    simp only [build_voja] at h
    split at h
    · split at h
      · exact absurd h (by simp)
      · split at h
        · injection h with h
          subst h
          simp [Model.add_op, Model.newSignal, Model.buildLowpass, List.mem_append, ho]
        · exact absurd h (by simp)
    · exact absurd h (by simp)

/-- On success from a state whose operator list and `add_op` log agree,
`build_voja` leaves the operator list exactly one `SimVoja` operator
longer than the log, with the learning-gate `Reset` in the log. -/
theorem build_voja_direct (m : Model) (tau : Option ℚ) (lr : ℚ)
    (rule : LearningRule) (delta : Sig) (m' : Model)
    (h : build_voja m tau lr rule delta = .ok m')
    (hbal : m.operators = m.addOpLog) :
    ∃ pd pf se sc ls lrate,
      m'.operators = m'.addOpLog ++ [Op.simVoja pd pf se delta sc ls lrate] ∧
      Op.reset ls 1 ∈ m'.addOpLog := by
  cases tau
  case none =>
    simp only [build_voja] at h
    split at h
    · split at h
      · exact absurd h (by simp)
      next radius heq =>
        split at h
        · injection h with h
          subst h
          refine ⟨m.connOut rule.connection, m.objOut rule.connection.post_obj,
            m.encoders rule.connection.post_obj,
            (m.paramsGain rule.connection.post_obj).map (fun g => g / radius),
            ⟨m.nextId, "Voja:learning", [rule.size_in], .zeros⟩, lr, ?_, ?_⟩ <;>
            simp [Model.add_op, Model.newSignal, Model.buildLowpass, hbal,
              List.mem_append]
        · exact absurd h (by simp)
    · exact absurd h (by simp)
  case some t =>
    simp only [build_voja] at h
    split at h
    · split at h
      · exact absurd h (by simp)
      next radius heq =>
        split at h
        · injection h with h
          subst h
          refine ⟨m.connOut rule.connection,
            ⟨m.nextId, "filtered " ++ (m.objOut rule.connection.post_obj).name,
              (m.objOut rule.connection.post_obj).shape, .external⟩,
            m.encoders rule.connection.post_obj,
            (m.paramsGain rule.connection.post_obj).map (fun g => g / radius),
            ⟨m.nextId + 1, "Voja:learning", [rule.size_in], .zeros⟩, lr, ?_, ?_⟩ <;>
            simp [Model.add_op, Model.newSignal, Model.buildLowpass, hbal,
              List.mem_append]
        · exact absurd h (by simp)
    · exact absurd h (by simp)

/-- On success, the builder dispatch only appends operators. -/
theorem buildRuleType_mono (m : Model) (rule : LearningRule) (delta : Sig)
    (m' : Model) (h : buildRuleType m rule delta = .ok m') :
    ∀ o ∈ m.operators, o ∈ m'.operators := by
  unfold buildRuleType at h
  split at h
  · exact build_bcm_mono _ _ _ _ _ _ _ _ h
  · exact build_oja_mono _ _ _ _ _ _ _ _ h
  · exact build_voja_mono _ _ _ _ _ _ h
  · exact build_pes_mono _ _ _ _ _ _ h

/-- On success, `build_bcm` keeps the operator list and the `add_op` log
in step. -/
theorem build_bcm_balanced (m : Model) (a b c lr : ℚ) (rule : LearningRule)
    (delta : Sig) (m' : Model) (h : build_bcm m a b c lr rule delta = .ok m')
    (hbal : m.operators = m.addOpLog) : m'.operators = m'.addOpLog := by
  obtain ⟨l, h1, h2⟩ := build_bcm_append m a b c lr rule delta m' h
  rw [h1, h2, hbal]

/-- On success, `build_oja` keeps the operator list and the `add_op` log
in step. -/
theorem build_oja_balanced (m : Model) (a b lr beta : ℚ) (rule : LearningRule)
    (delta : Sig) (m' : Model) (h : build_oja m a b lr beta rule delta = .ok m')
    (hbal : m.operators = m.addOpLog) : m'.operators = m'.addOpLog := by
  obtain ⟨l, h1, h2⟩ := build_oja_append m a b lr beta rule delta m' h
  rw [h1, h2, hbal]

/-- Fixture: a factored connection from `ens2` to itself. -/
def factoredConn : Connection := ⟨.ens ens2, .ens ens2, true⟩

/-- Fixture: a Voja (encoder-modifying) rule on the factored connection. -/
def vojaRule : LearningRule := ⟨factoredConn, "encoders", 1, .voja none (1/100)⟩

/-- Fixture ensemble: three neurons, one dimension. -/
def ens3 : Ensemble := ⟨3, 1, 1⟩

/-- Fixture ensemble: five neurons, one dimension. -/
def ens5 : Ensemble := ⟨5, 1, 1⟩

/-- Fixture: an unfactored connection from the 3-neuron population to the
5-neuron population. -/
def conn35 : Connection := ⟨.ens ens3, .ens ens5, false⟩

/-- Fixture: a weight-modifying (BCM) rule on the unfactored 3-to-5
connection. -/
def weightsRule35 : LearningRule := ⟨conn35, "weights", 1, .bcm 1 1 1 (1/100)⟩

/-- Fixture model shaped for `conn35`: the dense weight matrix is 5×3. -/
def model35 : Model where
  dt := 1/1000
  nextId := 1000
  operators := []
  addOpLog := []
  common1 := ⟨0, "common", [], .const 1⟩
  encoders := fun _ => ⟨1, "encoders", [5, 1], .external⟩
  weights := fun _ => ⟨2, "weights", [5, 3], .external⟩
  connOut := fun _ => ⟨3, "conn out", [1], .external⟩
  objOut := fun _ => ⟨4, "out", [3], .external⟩
  neuronsOut := fun _ => ⟨5, "neurons out", [3], .external⟩
  paramsGain := fun _ => [1, 1, 1, 1, 1]

/-- On success, `delta_setup` changes no operator state: it only
allocates the `Delta` signal. -/
theorem delta_setup_state (m : Model) (rule : LearningRule) (mS : Model)
    (tg : Sig) (tag : String) (dl : Sig)
    (heq : delta_setup m rule = .ok (mS, tg, tag, dl)) :
    mS.operators = m.operators ∧ mS.addOpLog = m.addOpLog ∧
      mS.common1 = m.common1 := by
  simp only [delta_setup] at heq
  split at heq
  · split at heq
    · injection heq with heq
      cases heq
      exact ⟨rfl, rfl, rfl⟩
    · exact absurd heq (by simp)
  · split at heq
    · split at heq
      · exact absurd heq (by simp)
      · split at heq
        · split at heq
          · injection heq with heq
            cases heq
            exact ⟨rfl, rfl, rfl⟩
          · exact absurd heq (by simp)
        · injection heq with heq
          cases heq
          exact ⟨rfl, rfl, rfl⟩
    · exact absurd heq (by simp)

/-- C10: `build_voja` appends its `SimVoja` operator directly to
`model.operators` instead of registering it through `model.add_op` — on
any state whose operator list and `add_op` log agree, it leaves the list
exactly one `SimVoja` longer than the log (its `Reset`, in contrast, is
logged) — while `build_bcm`, `build_oja`, `build_pes` and
`build_learning_rule` with any non-Voja rule keep list and log equal. -/
theorem voja_registered_directly :
    (∀ (m : Model) (tau : Option ℚ) (lr : ℚ) (rule : LearningRule)
        (delta : Sig) (m' : Model),
      build_voja m tau lr rule delta = .ok m' → m.operators = m.addOpLog →
        ∃ pd pf se sc ls lrate,
          m'.operators = m'.addOpLog ++ [Op.simVoja pd pf se delta sc ls lrate] ∧
          Op.reset ls 1 ∈ m'.addOpLog) ∧
    (∀ (m : Model) (a b c lr : ℚ) (rule : LearningRule) (delta : Sig) (m' : Model),
      build_bcm m a b c lr rule delta = .ok m' → m.operators = m.addOpLog →
        m'.operators = m'.addOpLog) ∧
    (∀ (m : Model) (a b lr beta : ℚ) (rule : LearningRule) (delta : Sig) (m' : Model),
      build_oja m a b lr beta rule delta = .ok m' → m.operators = m.addOpLog →
        m'.operators = m'.addOpLog) ∧
    (∀ (m : Model) (a lr : ℚ) (rule : LearningRule) (delta : Sig) (m' : Model),
      build_pes m a lr rule delta = .ok m' → m.operators = m.addOpLog →
        m'.operators = m'.addOpLog) ∧
    (∀ (m : Model) (rule : LearningRule) (m' : Model),
      build_learning_rule m rule = .ok m' → m.operators = m.addOpLog →
        ((∃ tau lr, rule.learning_rule_type = RuleType.voja tau lr) →
          ∃ pd pf se dl sc ls lrate,
            m'.operators = m'.addOpLog ++ [Op.simVoja pd pf se dl sc ls lrate]) ∧
        ((∀ tau lr, rule.learning_rule_type ≠ RuleType.voja tau lr) →
          m'.operators = m'.addOpLog)) := by
  refine ⟨fun m tau lr rule delta m' h hbal =>
      build_voja_direct m tau lr rule delta m' h hbal,
    fun m a b c lr rule delta m' h hbal =>
      build_bcm_balanced m a b c lr rule delta m' h hbal,
    fun m a b lr beta rule delta m' h hbal =>
      build_oja_balanced m a b lr beta rule delta m' h hbal,
    fun m a lr rule delta m' h hbal =>
      build_pes_balanced m a lr rule delta m' h hbal,
    fun m rule m' h hbal => ?_⟩
  unfold build_learning_rule at h
  split at h
  · exact absurd h (by simp)
  next mS tg tag dl heq =>
    obtain ⟨hS1, hS2, -⟩ := delta_setup_state m rule mS tg tag dl heq
    have hS : mS.operators = m.operators ∧ mS.addOpLog = m.addOpLog := ⟨hS1, hS2⟩
    split at h
    case isFalse => exact absurd h (by simp)
    case isTrue hshape =>
      have hbal2 : (mS.add_op (.elementwiseInc mS.common1 dl tg tag)).operators =
          (mS.add_op (.elementwiseInc mS.common1 dl tg tag)).addOpLog := by
        simp [Model.add_op, hS.1, hS.2, hbal]
      constructor
      · rintro ⟨tau, lr, hvoja⟩
        unfold buildRuleType at h
        split at h
        · next heqT => rw [hvoja] at heqT; exact absurd heqT (by simp)
        · next heqT => rw [hvoja] at heqT; exact absurd heqT (by simp)
        · obtain ⟨pd, pf, se, sc, ls, lrate, h2, -⟩ :=
            build_voja_direct _ _ _ _ _ _ h hbal2
          exact ⟨pd, pf, se, dl, sc, ls, lrate, h2⟩
        · next heqT => rw [hvoja] at heqT; exact absurd heqT (by simp)
      · intro hnon
        unfold buildRuleType at h
        split at h
        · exact build_bcm_balanced _ _ _ _ _ _ _ _ h hbal2
        · exact build_oja_balanced _ _ _ _ _ _ _ _ h hbal2
        · next tau lr heqT => exact absurd heqT (hnon tau lr)
        · exact build_pes_balanced _ _ _ _ _ _ h hbal2

/-- Witness for C10: the concrete factored Voja build from `model0`
succeeds and leaves exactly one unlogged `SimVoja` operator. -/
theorem voja_registered_directly_witness :
    ∃ pd pf se dl sc ls lrate m',
      build_learning_rule model0 vojaRule = .ok m' ∧
      m'.operators = m'.addOpLog ++ [Op.simVoja pd pf se dl sc ls lrate] := by
  obtain ⟨h1, -⟩ := (voja_registered_directly.2.2.2.2 model0 vojaRule _ rfl rfl)
  obtain ⟨pd, pf, se, dl, sc, ls, lrate, h2⟩ := h1 ⟨none, 1/100, rfl⟩
  exact ⟨pd, pf, se, dl, sc, ls, lrate, _, rfl, h2⟩

/-- C7: on every successful `build_learning_rule`, the allocated `Delta`
signal is accumulated into the target by the registered `ElementwiseInc`,
its shape equals the target's shape (the assert precedes registration),
and that shape is (post neurons × post dimensions) for `'encoders'`,
(post neurons × pre neurons) for unfactored `'decoders'`/`'weights'`, and
(rule input width × pre neurons) for factored ones. -/
theorem delta_shape_matches_target :
    ∀ (m : Model) (rule : LearningRule) (m' : Model),
      build_learning_rule m rule = .ok m' →
      ∃ delta target tag,
        Op.elementwiseInc m.common1 delta target tag ∈ m'.operators ∧
        delta.shape = target.shape ∧
        ((rule.modifies = "encoders" ∧
            ∃ nn d, (get_post_ens rule.connection).n_neurons? = some nn ∧
              (get_post_ens rule.connection).dimensions? = some d ∧
              delta.shape = [nn, d]) ∨
         ((rule.modifies = "decoders" ∨ rule.modifies = "weights") ∧
            rule.connection.is_factored = false ∧
            ∃ nn pre, (get_post_ens rule.connection).n_neurons? = some nn ∧
              get_pre_ens rule.connection = some pre ∧
              delta.shape = [nn, pre.n_neurons]) ∨
         ((rule.modifies = "decoders" ∨ rule.modifies = "weights") ∧
            rule.connection.is_factored = true ∧
            ∃ pre, get_pre_ens rule.connection = some pre ∧
              delta.shape = [rule.size_in, pre.n_neurons])) := by
  intro m rule m' h
  unfold build_learning_rule at h
  split at h
  · exact absurd h (by simp)
  next mS tg tag dl heq =>
    split at h
    case isFalse => exact absurd h (by simp)
    case isTrue hshape =>
      have hmem0 : Op.elementwiseInc mS.common1 dl tg tag ∈
          (mS.add_op (.elementwiseInc mS.common1 dl tg tag)).operators := by
        simp [Model.add_op]
      have hmem := buildRuleType_mono _ _ _ _ h _ hmem0
      simp only [delta_setup] at heq
      split at heq
      case isTrue hmods =>
        split at heq
        next nn dims hnn hdims =>
          injection heq with heq
          cases heq
          exact ⟨_, _, _, hmem, hshape, Or.inl ⟨hmods, nn, dims, hnn, hdims, rfl⟩⟩
        · exact absurd heq (by simp)
      case isFalse hmods =>
        split at heq
        case isTrue hmods2 =>
          split at heq
          · exact absurd heq (by simp)
          next pre hpre =>
            split at heq
            case isTrue hfac =>
              split at heq
              next nn hnn =>
                injection heq with heq
                cases heq
                exact ⟨_, _, _, hmem, hshape,
                  Or.inr (Or.inl ⟨hmods2, hfac, nn, pre, hnn, hpre, rfl⟩)⟩
              · exact absurd heq (by simp)
            case isFalse hfac =>
              injection heq with heq
              cases heq
              have hfac' : rule.connection.is_factored = true := by
                revert hfac
                cases rule.connection.is_factored <;> simp
              exact ⟨_, _, _, hmem, hshape,
                Or.inr (Or.inr ⟨hmods2, hfac', pre, hpre, rfl⟩)⟩
        case isFalse hmods2 => exact absurd heq (by simp)

/-- Witness for C7: the weights rule on the unfactored 3-to-5 connection
builds; its `Delta` signal has shape (5, 3) and matches the weight
target. -/
theorem delta_shape_matches_target_witness :
    (∃ m' delta target tag,
      build_learning_rule model35 weightsRule35 = .ok m' ∧
      Op.elementwiseInc model35.common1 delta target tag ∈ m'.operators ∧
      delta.shape = target.shape) ∧
    (∃ m', build_learning_rule model35 weightsRule35 = .ok m' ∧
      Op.elementwiseInc model35.common1 ⟨1000, "Delta", [5, 3], .zeros⟩
        ⟨2, "weights", [5, 3], .external⟩ "weights += delta" ∈ m'.operators) := by
  constructor
  · obtain ⟨d, t, g, h1, h2, h3⟩ := delta_shape_matches_target model35 weightsRule35 _ rfl
    exact ⟨_, d, t, g, rfl, h1, h2⟩
  · exact ⟨_, rfl, by decide⟩

/-- Modelled from the spec: the generic `Reset` operator (outside the
translated source) writes a constant into its whole target buffer each
step (§3: the delta is "reset-then-written"; §6). -/
def resetStep (value : ℚ) : Vec := fun _ => value

/-- Modelled from the spec: the generic `DotInc` operator (outside the
translated source) accumulates a matrix–vector product into its target,
`y += A · x`, where `cols` is the column count of `A` (§4.4:
"encoded = encoders · correction"). -/
def dotIncStep (cols : ℕ) (a : Mat) (x y : Vec) : Vec :=
  fun i => y i + ∑ j in Finset.range cols, a i j * x j

/-- Modelled from the spec: `DotInc` with a scalar first argument
broadcasts, `y += a * x` (§4.4: "a scaled accumulate-multiply
operator"). -/
def scalarDotIncStep (a : ℚ) (x y : Vec) : Vec := fun i => y i + a * x i

/-- The `PES:error` signal `build_pes` allocates from model state `m`. -/
def pes_error_sig (m : Model) (si : ℕ) : Sig := ⟨m.nextId, "PES:error", [si], .zeros⟩

/-- The filtered-activities signal `build_pes` obtains from the low-pass
build on the pre object's output. -/
def pes_acts_sig (m : Model) (po : NObj) : Sig :=
  ⟨m.nextId + 1, "filtered " ++ (m.objOut po).name, (m.objOut po).shape, .external⟩

/-- The `PES:correction` signal `build_pes` allocates. -/
def pes_correction_sig (m : Model) (si : ℕ) : Sig :=
  ⟨m.nextId + 2, "PES:correction", [si], .zeros⟩

/-- The constant `PES:learning_rate` signal `build_pes` allocates: its
value is `-learning_rate * dt / n_neurons`. -/
def pes_lr_sig (m : Model) (lr : ℚ) (po : NObj) : Sig :=
  ⟨m.nextId + 3, "PES:learning_rate", [], .const (-lr * m.dt / (pes_n_neurons po : ℚ))⟩

/-- The `PES:encoded` signal `build_pes` allocates on an unfactored
connection. -/
def pes_encoded_sig (m : Model) (conn : Connection) : Sig :=
  ⟨m.nextId + 4, "PES:encoded", [(m.weights conn).shape.headD 0], .zeros⟩

/-- C5: `build_pes` chooses the local error by topology.  Unfactored
connection: the registered batch projects the correction through the post
encoders (`Reset` + `DotInc` into `PES:encoded`, which after `Reset`
computes `encoders · correction`) and accumulates `encoded ⊗ acts` into
delta.  Factored with ensemble or neuron-population pre: the correction
signal itself feeds the delta accumulation, unchanged.  Factored with any
other pre object: the build raises the unsuitable-pre-object
`ValueError`. -/
theorem pes_local_error_topology :
    (∀ (m : Model) (a lr : ℚ) (po pq : NObj) (mods : String) (si : ℕ)
        (rt : RuleType) (delta : Sig),
      ∃ m', build_pes m a lr ⟨⟨po, pq, false⟩, mods, si, rt⟩ delta = .ok m' ∧
        m'.operators = m.operators ++
          [Op.reset (pes_error_sig m si) 0,
           Op.reset (pes_correction_sig m si) 0,
           Op.dotInc (pes_lr_sig m lr po) (pes_error_sig m si)
             (pes_correction_sig m si) "PES:correct",
           Op.reset (pes_encoded_sig m ⟨po, pq, false⟩) 0,
           Op.dotInc (m.encoders (get_post_ens ⟨po, pq, false⟩))
             (pes_correction_sig m si) (pes_encoded_sig m ⟨po, pq, false⟩)
             "PES:encode",
           Op.reset delta 0,
           Op.elementwiseInc (pes_encoded_sig m ⟨po, pq, false⟩)
             (pes_acts_sig m po) delta "PES:Inc Delta"]) ∧
    (∀ (m : Model) (a lr : ℚ) (e : Ensemble) (pq : NObj) (mods : String)
        (si : ℕ) (rt : RuleType) (delta : Sig),
      ∃ m', build_pes m a lr ⟨⟨.ens e, pq, true⟩, mods, si, rt⟩ delta = .ok m' ∧
        m'.operators = m.operators ++
          [Op.reset (pes_error_sig m si) 0,
           Op.reset (pes_correction_sig m si) 0,
           Op.dotInc (pes_lr_sig m lr (.ens e)) (pes_error_sig m si)
             (pes_correction_sig m si) "PES:correct",
           Op.reset delta 0,
           Op.elementwiseInc (pes_correction_sig m si) (pes_acts_sig m (.ens e))
             delta "PES:Inc Delta"]) ∧
    (∀ (m : Model) (a lr : ℚ) (p : Ensemble) (pq : NObj) (mods : String)
        (si : ℕ) (rt : RuleType) (delta : Sig),
      ∃ m', build_pes m a lr ⟨⟨.neurons p, pq, true⟩, mods, si, rt⟩ delta = .ok m' ∧
        m'.operators = m.operators ++
          [Op.reset (pes_error_sig m si) 0,
           Op.reset (pes_correction_sig m si) 0,
           Op.dotInc (pes_lr_sig m lr (.neurons p)) (pes_error_sig m si)
             (pes_correction_sig m si) "PES:correct",
           Op.reset delta 0,
           Op.elementwiseInc (pes_correction_sig m si)
             (pes_acts_sig m (.neurons p)) delta "PES:Inc Delta"]) ∧
    (∀ (m : Model) (a lr : ℚ) (nsi nso : ℕ) (pq : NObj) (mods : String)
        (si : ℕ) (rt : RuleType) (delta : Sig),
      build_pes m a lr ⟨⟨.node nsi nso, pq, true⟩, mods, si, rt⟩ delta =
        .error (.valueError "pre object not suitable for PES learning")) ∧
    (∀ (cols : ℕ) (enc : Mat) (corr : Vec),
      dotIncStep cols enc corr (resetStep 0) =
        fun i => ∑ j in Finset.range cols, enc i j * corr j) := by
  refine ⟨?_, ?_, ?_, ?_, ?_⟩
  · intro m a lr po pq mods si rt delta
    refine ⟨_, rfl, ?_⟩
    simp [build_pes, Model.add_op, Model.newSignal, Model.buildLowpass,
      pes_error_sig, pes_correction_sig, pes_lr_sig, pes_encoded_sig,
      pes_acts_sig]
  · intro m a lr e pq mods si rt delta
    refine ⟨_, rfl, ?_⟩
    simp [build_pes, Model.add_op, Model.newSignal, Model.buildLowpass,
      pes_error_sig, pes_correction_sig, pes_lr_sig, pes_acts_sig]
  · intro m a lr p pq mods si rt delta
    refine ⟨_, rfl, ?_⟩
    simp [build_pes, Model.add_op, Model.newSignal, Model.buildLowpass,
      pes_error_sig, pes_correction_sig, pes_lr_sig, pes_acts_sig]
  · intro m a lr nsi nso pq mods si rt delta
    rfl
  · intro cols enc corr
    funext i
    simp [dotIncStep, resetStep]

/-- C6: every successful `build_pes` registers, over the reset-to-zero
correction signal, a `DotInc` whose constant first argument is
`-learning_rate * dt / n_neurons`, where `n_neurons` is the pre object's
neuron count for an ensemble and its raw input width otherwise; composed
with the reset, its per-step effect is
`correction = -learning_rate * (dt / n_neurons) * error`. -/
theorem pes_correction_formula :
    (∀ (m : Model) (a lr : ℚ) (rule : LearningRule) (delta : Sig) (m' : Model),
      build_pes m a lr rule delta = .ok m' →
      ∃ error correction,
        Op.reset correction 0 ∈ m'.operators ∧
        Op.dotInc (pes_lr_sig m lr rule.connection.pre_obj) error correction
          "PES:correct" ∈ m'.operators) ∧
    (∀ e : Ensemble, pes_n_neurons (.ens e) = e.n_neurons) ∧
    (∀ o : NObj, (∀ e, o ≠ .ens e) → pes_n_neurons o = o.size_in) ∧
    (∀ (v : ℚ) (e : Vec), scalarDotIncStep v e (resetStep 0) = fun i => v * e i) ∧
    (∀ (lr dtv : ℚ) (n : ℕ) (e : Vec) (i : ℕ),
      scalarDotIncStep (-lr * dtv / (n : ℚ)) e (resetStep 0) i =
        -lr * (dtv / (n : ℚ)) * e i) := by
  refine ⟨?_, fun e => rfl, ?_, ?_, ?_⟩
  · intro m a lr rule delta m' h
    simp only [build_pes] at h
    split at h
    · exact absurd h (by simp)
    next ml le heq =>
      injection h with h
      subst h
      split at heq
      · injection heq with heq
        cases heq
        refine ⟨pes_error_sig m rule.size_in, pes_correction_sig m rule.size_in, ?_, ?_⟩ <;>
          simp [Model.add_op, Model.newSignal, Model.buildLowpass,
            pes_error_sig, pes_correction_sig, pes_lr_sig, List.mem_append]
      · split at heq
        · injection heq with heq
          cases heq
          refine ⟨pes_error_sig m rule.size_in, pes_correction_sig m rule.size_in, ?_, ?_⟩ <;>
            simp [Model.add_op, Model.newSignal, Model.buildLowpass,
              pes_error_sig, pes_correction_sig, pes_lr_sig, List.mem_append]
        · injection heq with heq
          cases heq
          refine ⟨pes_error_sig m rule.size_in, pes_correction_sig m rule.size_in, ?_, ?_⟩ <;>
            simp [Model.add_op, Model.newSignal, Model.buildLowpass,
              pes_error_sig, pes_correction_sig, pes_lr_sig, List.mem_append]
        · exact absurd heq (by simp)
  · intro o ho
    cases o
    case ens e => exact absurd rfl (ho e)
    case neurons p => rfl
    case node nsi nso => rfl
  · intro v e
    funext i
    simp [scalarDotIncStep, resetStep]
  · intro lr dtv n e i
    simp [scalarDotIncStep, resetStep]
    ring

/-- Fixture: a PES rule on the unfactored 3-to-5 connection. -/
def pesRule35 : LearningRule := ⟨conn35, "weights", 1, .pes 1 1⟩

/-- Fixture delta signal for the PES witness. -/
def pesDelta35 : Sig := ⟨999, "Delta", [5, 3], .zeros⟩

/-- Witness for C6: the concrete PES build on `model35` succeeds, its
`n_neurons` is the pre ensemble's neuron count 3, and the correction
`DotInc` is registered. -/
theorem pes_correction_formula_witness :
    pes_n_neurons pesRule35.connection.pre_obj = 3 ∧
    ∃ m' error correction,
      build_pes model35 1 1 pesRule35 pesDelta35 = .ok m' ∧
      Op.reset correction 0 ∈ m'.operators ∧
      Op.dotInc (pes_lr_sig model35 1 pesRule35.connection.pre_obj) error
        correction "PES:correct" ∈ m'.operators := by
  refine ⟨rfl, ?_⟩
  obtain ⟨error, correction, h1, h2⟩ :=
    pes_correction_formula.1 model35 1 1 pesRule35 pesDelta35 _ rfl
  exact ⟨_, error, correction, rfl, h1, h2⟩

end Nengo
